import Mathlib

/-!
Verification development for the DHGate affiliate-orders scraper
(`main.py`).  The Python code is shallowly embedded: the SQLite `orders`
table becomes a list of `OrderRecord`s, parsed CSV rows become
association lists of column name/value pairs, wall-clock timestamps
become explicit `Nat`/`Int` parameters, and browser / network I-O is
abstracted into explicit oracle arguments.  Each definition is a direct
translation of the corresponding Python function.
-/

namespace DHGate

/-! ## String helpers

Python's `needle in haystack` substring test and `str.lower()`,
modelled on `List Char`. -/

/-- `matchesAt needle hay`: `hay` begins with `needle`. -/
def matchesAt : List Char → List Char → Bool
  | [], _ => true
  | _ :: _, [] => false
  | b :: bs, a :: as => (b = a) && matchesAt bs as

/-- `containsL needle hay`: `needle` occurs contiguously inside `hay`. -/
def containsL (needle : List Char) : List Char → Bool
  | [] => matchesAt needle []
  | a :: as => matchesAt needle (a :: as) || containsL needle as

/-- Python `needle in hay` on strings. -/
def strContains (hay needle : String) : Bool :=
  containsL needle.data hay.data

/-- Python `str.lower()` (ASCII case fold suffices for the markers used). -/
def strLower (s : String) : String :=
  String.mk (s.data.map Char.toLower)

/-! ## Ledger data model (`orders` table, `init_database`) -/

/-- One row of the SQLite `orders` table created by `init_database`.
`final_url` is nullable (`Option`); the two system timestamps are
modelled as abstract `Nat` clock values. -/
structure OrderRecord where
  order_no : String
  sale_amount_usd : String
  estimated_commission : String
  confirmed_commission : String
  status : String
  description : String
  create_time : String
  pid : String
  tracking_source : String
  media_id : String
  media : String
  customize1_id : String
  customize2_id : String
  country_region : String
  final_url : Option String
  created_at : Nat
  updated_at : Nat
  deriving Repr, DecidableEq

/-- A parsed CSV row: the Python `dict` produced by `csv.DictReader` /
the manual header zip in `process_orders_response`. -/
abbrev CsvRow : Type := List (String × String)

/-- Python `row.get(key, '')`. -/
def dictGet (row : CsvRow) (key : String) : String :=
  match row.find? (fun p => p.fst = key) with
  | some p => p.snd
  | none => ""

/-- The vendor-column values mapped by `save_orders_to_db` (the
`db_data` dict, minus the timestamp). -/
structure RowFields where
  order_no : String
  sale_amount_usd : String
  estimated_commission : String
  confirmed_commission : String
  status : String
  description : String
  create_time : String
  pid : String
  tracking_source : String
  media_id : String
  media : String
  customize1_id : String
  customize2_id : String
  country_region : String
  deriving Repr, DecidableEq

/-- The column-name mapping performed at the top of the
`save_orders_to_db` loop (`db_data = {...}`). -/
def rowFields (row : CsvRow) : RowFields where
  order_no := dictGet row "Order No."
  sale_amount_usd := dictGet row "Sale Amount(USD)"
  estimated_commission := dictGet row "Estimated commission"
  confirmed_commission := dictGet row "Confirmed Commission"
  status := dictGet row "Status"
  description := dictGet row "Description"
  create_time := dictGet row "Create Time"
  pid := dictGet row "pid"
  tracking_source := dictGet row "tracking source"
  media_id := dictGet row "media id"
  media := dictGet row "media"
  customize1_id := dictGet row "Customize1 ID"
  customize2_id := dictGet row "Customize2 ID"
  country_region := dictGet row "Country/Region"

/-- The `UPDATE orders SET ... WHERE order_no = ?` statement of
`save_orders_to_db`: writes every mapped field plus `updated_at`;
leaves `order_no`, `created_at` and `final_url` untouched. -/
def updFields (f : RowFields) (now : Nat) (x : OrderRecord) : OrderRecord :=
  { x with
    sale_amount_usd := f.sale_amount_usd
    estimated_commission := f.estimated_commission
    confirmed_commission := f.confirmed_commission
    status := f.status
    description := f.description
    create_time := f.create_time
    pid := f.pid
    tracking_source := f.tracking_source
    media_id := f.media_id
    media := f.media
    customize1_id := f.customize1_id
    customize2_id := f.customize2_id
    country_region := f.country_region
    updated_at := now }

/-- The `INSERT INTO orders (...)` statement of `save_orders_to_db`:
`final_url` is not in the column list, so it starts NULL;
`created_at` and `updated_at` both receive the current timestamp. -/
def mkRecord (f : RowFields) (now : Nat) : OrderRecord where
  order_no := f.order_no
  sale_amount_usd := f.sale_amount_usd
  estimated_commission := f.estimated_commission
  confirmed_commission := f.confirmed_commission
  status := f.status
  description := f.description
  create_time := f.create_time
  pid := f.pid
  tracking_source := f.tracking_source
  media_id := f.media_id
  media := f.media
  customize1_id := f.customize1_id
  customize2_id := f.customize2_id
  country_region := f.country_region
  final_url := none
  created_at := now
  updated_at := now

/-- `SELECT order_no FROM orders WHERE order_no = ?` followed by
`fetchone()`: does any row carry this key? -/
def keyMem (k : String) (db : List OrderRecord) : Bool :=
  db.any (fun x => x.order_no = k)

/-- `SELECT * FROM orders WHERE order_no = ?` (first matching row). -/
def lookupByNo (db : List OrderRecord) (k : String) : Option OrderRecord :=
  db.find? (fun x => x.order_no = k)

/-- Running state of the `save_orders_to_db` loop: the table plus the
`saved_count`/`updated_count` counters. -/
structure SaveState where
  db : List OrderRecord
  saved_count : Nat
  updated_count : Nat
  deriving Repr

/-- The row transformation of the `UPDATE ... WHERE order_no = ?`
statement: rows matching the key are rewritten, others untouched. -/
def updIf (f : RowFields) (now : Nat) (x : OrderRecord) : OrderRecord :=
  if x.order_no = f.order_no then updFields f now x else x

/-- One iteration of the `for order in orders_collection` loop in
`save_orders_to_db`: skip on empty `order_no`, UPDATE when the key
exists, INSERT otherwise. -/
def saveStep (now : Nat) (st : SaveState) (f : RowFields) : SaveState :=
  if f.order_no = "" then st
  else if keyMem f.order_no st.db then
    { st with
      db := st.db.map (updIf f now)
      updated_count := st.updated_count + 1 }
  else
    { st with
      db := st.db ++ [mkRecord f now]
      saved_count := st.saved_count + 1 }

/-- Result of `save_orders_to_db`: the table after the loop, the two
counters, and the Python return value (`True` on the success path). -/
structure SaveResult where
  db : List OrderRecord
  saved_count : Nat
  updated_count : Nat
  ret : Bool
  deriving Repr

/-- `DHGateScraper.save_orders_to_db`, with the wall clock
(`datetime.now()`) passed explicitly.  The function logs the two
counters and returns `True`. -/
def save_orders_to_db (orders_collection : List CsvRow) (now : Nat)
    (db : List OrderRecord) : SaveResult :=
  let st := orders_collection.foldl
    (fun st row => saveStep now st (rowFields row)) ⟨db, 0, 0⟩
  ⟨st.db, st.saved_count, st.updated_count, true⟩

/-- `DHGateScraper.update_order_final_url`: an unconditional
`UPDATE orders SET final_url = ?, updated_at = ? WHERE order_no = ?`,
returning `True`. -/
def update_order_final_url (db : List OrderRecord) (order_no : String)
    (final_url : String) (now : Nat) : List OrderRecord × Bool :=
  (db.map (fun x =>
    if x.order_no = order_no then
      { x with final_url := some final_url, updated_at := now }
    else x), true)

/-! ## `get_orders_without_final_url`: `SELECT * FROM orders WHERE
final_url IS NULL ORDER BY order_no DESC`.  The `ORDER BY ... DESC` is
embedded as an insertion sort by descending `order_no`. -/

/-- Insert into a list kept in descending `order_no` order. -/
def insertDesc (x : OrderRecord) : List OrderRecord → List OrderRecord
  | [] => [x]
  | y :: ys =>
    if y.order_no ≤ x.order_no then x :: y :: ys else y :: insertDesc x ys

/-- Sort by descending `order_no` (SQLite `ORDER BY order_no DESC`). -/
def sortDesc : List OrderRecord → List OrderRecord
  | [] => []
  | x :: xs => insertDesc x (sortDesc xs)

/-- `DHGateScraper.get_orders_without_final_url`. -/
def get_orders_without_final_url (db : List OrderRecord) : List OrderRecord :=
  sortDesc (db.filter (fun x => x.final_url.isNone))

/-! ## The resolve loop of `process_orders_response` (lines 922-979).

The per-order call chain `follow_all_redirects` + retries is abstracted
into an oracle `resolve : String → Option String` mapping the seed URL
to the eventual truthy final URL (if any attempt succeeded). -/

/-- The seed URL built in `process_orders_response`
(`download_url = f"https://izeeto.com/conv?subid=...&tid=...&amount=..."`). -/
def seedUrl (o : OrderRecord) : String :=
  "https://izeeto.com/conv?subid=" ++ o.customize1_id ++
    "&tid=" ++ o.order_no ++ "&amount=" ++ o.sale_amount_usd

/-- One iteration of the `for order in orders_to_process` loop: requires
both `order_no` and `customize1_id` truthy, then on a truthy resolved
URL writes it back via `update_order_final_url`. -/
def resolveStep (resolve : String → Option String) (now : Nat)
    (db : List OrderRecord) (o : OrderRecord) : List OrderRecord :=
  if o.order_no ≠ "" ∧ o.customize1_id ≠ "" then
    match resolve (seedUrl o) with
    | some u =>
      if u ≠ "" then (update_order_final_url db o.order_no u now).1 else db
    | none => db
  else db

/-- The resolve phase of `process_orders_response`: iterate over the
snapshot returned by `get_orders_without_final_url`, updating the
table as resolutions succeed. -/
def resolvePhase (resolve : String → Option String) (now : Nat)
    (db : List OrderRecord) : List OrderRecord :=
  (get_orders_without_final_url db).foldl (resolveStep resolve now) db

/-! ## `follow_all_redirects` (lines 605-689)

The browser is abstracted into an oracle: `nav u` is
`driver.current_url` after `driver.get(u)` plus the initial settle;
`pageContent u` is `driver.page_source` there; `nav2`/`nav3` are the
re-read current URLs after the extra JavaScript-redirect waits.  The
loop guard `redirect_count < max_redirects` becomes structural fuel
`max_redirects - redirect_count`; every `continue` in the Python loop
increments `redirect_count`, i.e. consumes one unit of fuel. -/

structure Browser where
  nav : String → String
  pageContent : String → String
  nav2 : String → String
  nav3 : String → String

/-- How one resolution attempt ends.  The Python function returns the
final URL on success and `None` on every abort, distinguishing the
abort causes only in its log line; the log message is modelled as the
constructor. -/
inductive RedirectResult where
  | resolved (url : String)
  | circularRedirect
  | invalidDestination
  | maxRedirectsExceeded
  deriving Repr, DecidableEq

/-- The `while redirect_count < max_redirects` loop body of
`follow_all_redirects`, with `fuel = max_redirects - redirect_count`. -/
def followLoop (b : Browser) : Nat → List String → String → RedirectResult
  | 0, _, _ => .maxRedirectsExceeded
  | fuel + 1, visited, current =>
    if visited.contains current then .circularRedirect
    else
      let visited' := current :: visited
      let u1 := b.nav current
      if u1 ≠ current then followLoop b fuel visited' u1
      else
        let page := b.pageContent current
        if strContains page "window.history.back()" then .invalidDestination
        else if strContains (strLower page) "redirecting"
            || strContains page "window.location" then
          let u2 := b.nav2 current
          if u2 ≠ current then followLoop b fuel visited' u2
          else if strContains (strLower page) "redirecting" then
            let u3 := b.nav3 current
            if u3 ≠ current then followLoop b fuel visited' u3
            else .resolved u1
          else .resolved u1
        else if strContains (strLower page) "redirecting" then
          let u3 := b.nav3 current
          if u3 ≠ current then followLoop b fuel visited' u3
          else .resolved u1
        else .resolved u1

/-- `DHGateScraper.follow_all_redirects`: starts with
`redirect_count = 0` and `visited_urls = set()`. -/
def follow_all_redirects (b : Browser) (url : String)
    (max_redirects : Nat) : RedirectResult :=
  followLoop b max_redirects [] url

/-! ## `load_cached_headers` (lines 331-359) -/

/-- The assembled header set (`self.headers` in `extract_auth_headers`). -/
structure HeaderSet where
  cookie : String
  userAgent : String
  authorization : String
  contentType : String
  deriving Repr, DecidableEq

/-- What reading and JSON-parsing `headers_cache.txt` can yield:
file missing, unparsable (any exception on the read path), or a parsed
object with an optional `timestamp` key and the `headers` value. -/
inductive CacheRead where
  | missing
  | corrupt
  | data (timestamp : Option Int) (headers : HeaderSet)
  deriving Repr, DecidableEq

/-- `DHGateScraper.load_cached_headers`, with the clock explicit
(seconds; `time_diff.total_seconds()` is `now - cacheTime`). -/
def load_cached_headers (read : CacheRead) (now : Int) : Option HeaderSet :=
  match read with
  | .missing => none
  | .corrupt => none
  | .data ts h =>
    match ts with
    | none => none
    | some cacheTime =>
      if now - cacheTime < 24 * 60 * 60 then some h else none

/-! ## `test_headers_validity` (lines 379-412) and the `run`
re-authentication decision (lines 992-1010) -/

/-- The fields of the probe response body the code consults
(`response_data.get('success', False)` / `.get('msg', '')`). -/
structure JsonBody where
  success : Bool
  msg : String
  deriving Repr, DecidableEq

/-- An HTTP response: status code plus the outcome of `.json()`
(`none` = the parse raised, caught by the outer `except`). -/
structure HttpResponse where
  status : Nat
  payload : Option JsonBody
  deriving Repr, DecidableEq

/-- Outcome of the probe request itself: the `requests.post` call
raised (network/timeout), or returned a response. -/
inductive ProbeOutcome where
  | raised
  | got (r : HttpResponse)
  deriving Repr, DecidableEq

/-- `DHGateScraper.test_headers_validity`. -/
def test_headers_validity (probe : ProbeOutcome) : Bool :=
  match probe with
  | .raised => false
  | .got r =>
    if r.status = 200 then
      match r.payload with
      | none => false
      | some body =>
        if body.success then true
        else if strContains body.msg "Token invalid" then false
        else true
    else false

/-- How `run` proceeds after consulting the cache and the prober. -/
inductive AuthPath where
  | useCached (h : HeaderSet)
  | browserLogin
  deriving Repr, DecidableEq

/-- The credential decision at the top of `DHGateScraper.run`:
cached headers are used only when present and probed valid; in every
other case the orchestrator falls back to browser login. -/
def runAuthDecision (cached : Option HeaderSet) (probe : ProbeOutcome) :
    AuthPath :=
  match cached with
  | some h => if test_headers_validity probe then .useCached h else .browserLogin
  | none => .browserLogin

/-! ## `extract_auth_token` (lines 691-793) and
`extract_auth_headers` (lines 569-602)

The page is abstracted into the values each probing strategy would
yield: the browser-storage script result, the global-variable script
result, the meta-tag content, and the regex match over inline scripts
(`none` = absent, `some ""` = present but falsy). -/

structure PageProbe where
  storageToken : Option String
  globalToken : Option String
  metaToken : Option String
  scriptToken : Option String

/-- Python truthiness for an optional string result. -/
def truthy : Option String → Option String
  | some t => if t = "" then none else some t
  | none => none

/-- `DHGateScraper.extract_auth_token`: storage keys, then global
variables, then meta tags, then regex over scripts; falls back to the
literal placeholder string. -/
def extract_auth_token (p : PageProbe) : String :=
  match truthy p.storageToken with
  | some t => t
  | none =>
    match truthy p.globalToken with
    | some t => t
    | none =>
      match truthy p.metaToken with
      | some t => t
      | none =>
        match truthy p.scriptToken with
        | some t => t
        | none => "YOUR_AUTH_TOKEN_HERE"

/-- `DHGateScraper.extract_auth_headers`: runs `extract_auth_token`,
then overrides with the manual token when that is truthy, rejects an
empty or placeholder token, and otherwise assembles the header set.
`manual = none` models an unset `AUTH_TOKEN`; `some ""` an empty one. -/
def extract_auth_headers (manual : Option String) (cookieStr ua : String)
    (p : PageProbe) : Option HeaderSet :=
  let extracted := extract_auth_token p
  let auth_token :=
    match manual with
    | some m => if m = "" then extracted else m
    | none => extracted
  if auth_token = "" ∨ auth_token = "YOUR_AUTH_TOKEN_HERE" then none
  else some ⟨cookieStr, ua, auth_token, "application/json"⟩

/-! ## Helper lemmas for the redirect resolver -/

theorem followLoop_zero (b : Browser) (vis : List String) (cur : String) :
    followLoop b 0 vis cur = .maxRedirectsExceeded := rfl

theorem followLoop_mem (b : Browser) (fuel : Nat) (vis : List String)
    (cur : String) (h : vis.contains cur = true) :
    followLoop b (fuel + 1) vis cur = .circularRedirect := by
  rw [followLoop, if_pos h]

theorem followLoop_hop (b : Browser) (fuel : Nat) (vis : List String)
    (cur : String) (hmem : vis.contains cur = false)
    (hne : b.nav cur ≠ cur) :
    followLoop b (fuel + 1) vis cur = followLoop b fuel (cur :: vis) (b.nav cur) := by
  rw [followLoop]
  simp only [hmem, Bool.false_eq_true, if_false, if_pos hne]

/-- An endless genuine redirect chain: every navigation moves to a
strictly longer, hence fresh, URL. -/
def chainB : Browser where
  nav := fun u => u ++ "x"
  pageContent := fun _ => ""
  nav2 := fun u => u
  nav3 := fun u => u

/-- A concrete chain of 3 genuine redirects `u0 → u1 → u2 → u3`. -/
def threeChainB : Browser where
  nav := fun u =>
    if u = "u0" then "u1" else if u = "u1" then "u2" else
    if u = "u2" then "u3" else u
  pageContent := fun _ => ""
  nav2 := fun u => u
  nav3 := fun u => u

/-- A concrete seed that redirects away and then back to itself. -/
def loopB : Browser where
  nav := fun u => if u = "urlA" then "urlB" else if u = "urlB" then "urlA" else u
  pageContent := fun _ => ""
  nav2 := fun u => u
  nav3 := fun u => u

theorem chainB_no_revisit (fuel : Nat) :
    ∀ (vis : List String) (cur : String),
      (∀ v ∈ vis, v.length < cur.length) →
      followLoop chainB fuel vis cur = .maxRedirectsExceeded := by
  induction fuel with
  | zero => intro vis cur _; rfl
  | succ n ih =>
    intro vis cur hinv
    have hmem : vis.contains cur = false := by
      cases h : vis.contains cur
      · rfl
      · exact absurd (hinv cur (List.elem_iff.mp h)) (lt_irrefl _)
    have hne : chainB.nav cur ≠ cur := by
      intro h
      have hlen : (cur ++ "x").length = cur.length + 1 := by
        simp [String.length_append]
        decide
      have : cur.length + 1 = cur.length := by
        rw [← hlen]; exact congrArg String.length h
      omega
    rw [followLoop_hop chainB n vis cur hmem hne]
    apply ih
    intro v hv
    have hlen : (chainB.nav cur).length = cur.length + 1 := by
      simp [chainB, String.length_append]
      decide
    rcases List.mem_cons.mp hv with h | h
    · subst h; omega
    · have := hinv v h; omega

/-- C6: the visited-set check aborts any attempt whose current URL was
already seen with the `circularRedirect` outcome; in particular a seed
that redirects away and straight back (one hop out, one hop home, with
at least 3 hops of budget left) is aborted as circular instead of
looping. -/
theorem C6_circular_detection : ∀ (b : Browser),
    (∀ (fuel : Nat) (visited : List String) (current : String),
      visited.contains current = true →
      followLoop b (fuel + 1) visited current = .circularRedirect)
    ∧ (∀ (url hop : String) (maxR : Nat), 3 ≤ maxR →
        b.nav url = hop → hop ≠ url → b.nav hop = url →
        follow_all_redirects b url maxR = .circularRedirect) := by
  intro b
  constructor
  · exact fun fuel visited current h => followLoop_mem b fuel visited current h
  · intro url hop maxR h3 hnav hne hback
    obtain ⟨m, rfl⟩ : ∃ m, maxR = m + 3 := ⟨maxR - 3, by omega⟩
    show followLoop b (m + 2 + 1) [] url = .circularRedirect
    rw [followLoop_hop b (m + 2) [] url rfl (by rw [hnav]; exact hne), hnav]
    rw [show m + 2 = m + 1 + 1 from rfl]
    have hm1 : ([url] : List String).contains hop = false := by
      simp [List.contains]
      intro h; exact hne (by simp [h])
    rw [followLoop_hop b (m + 1) [url] hop hm1 (by rw [hback]; exact fun h => hne h.symm), hback]
    apply followLoop_mem
    simp [List.contains]

/-- C6 witness: a concrete browser whose seed `urlA` hops to `urlB` and
back; with the default budget of 10 the resolver reports a circular
redirect. -/
theorem C6_circular_detection_witness :
    follow_all_redirects loopB "urlA" 10 = .circularRedirect := by
  have h := (C6_circular_detection loopB).2 "urlA" "urlB" 10
    (by omega) (by decide) (by decide) (by decide)
  exact h

/-- C7: the loop runs only while the hop count is below the budget:
with the budget exhausted it stops with `maxRedirectsExceeded`; it
terminates with that outcome for every budget even on an endless
genuine redirect chain; and concretely, with `max_redirects = 2` and a
chain of 3 genuine redirects it aborts with `maxRedirectsExceeded`. -/
theorem C7_hop_budget :
    (∀ (b : Browser) (vis : List String) (cur : String),
      followLoop b 0 vis cur = .maxRedirectsExceeded)
    ∧ (∀ (maxR : Nat) (url : String),
        follow_all_redirects chainB url maxR = .maxRedirectsExceeded)
    ∧ follow_all_redirects threeChainB "u0" 2 = .maxRedirectsExceeded := by
  refine ⟨fun b vis cur => rfl, fun maxR url => ?_, ?_⟩
  · exact chainB_no_revisit maxR [] url (by simp)
  · decide

/-! ## C9: credential freshness in `load_cached_headers` -/

/-- C9: a cached credential strictly inside the 24-hour window is
returned; one at or past 24 hours is treated as absent, as are a
missing or unparsable cache file; concretely `now − 1h` is returned
and `now − 25h` is absent. -/
theorem C9_cache_freshness : ∀ (h : HeaderSet) (now t : Int),
    (now - t < 86400 → load_cached_headers (.data (some t) h) now = some h)
    ∧ (86400 ≤ now - t → load_cached_headers (.data (some t) h) now = none)
    ∧ load_cached_headers (.data (some (now - 3600)) h) now = some h
    ∧ load_cached_headers (.data (some (now - 90000)) h) now = none
    ∧ load_cached_headers .missing now = none
    ∧ load_cached_headers .corrupt now = none
    ∧ load_cached_headers (.data none h) now = none := by
  intro h now t
  refine ⟨fun hlt => ?_, fun hge => ?_, ?_, ?_, rfl, rfl, rfl⟩
  · simp only [load_cached_headers]
    rw [if_pos (by omega)]
  · simp only [load_cached_headers]
    rw [if_neg (by omega)]
  · simp only [load_cached_headers]
    rw [if_pos (by omega)]
  · simp only [load_cached_headers]
    rw [if_neg (by omega)]

/-- C9 witness: concrete clock values (`now = 100000`). -/
theorem C9_cache_freshness_witness :
    load_cached_headers
      (.data (some 96400) ⟨"c", "ua", "tok", "application/json"⟩) 100000
      = some ⟨"c", "ua", "tok", "application/json"⟩
    ∧ load_cached_headers
      (.data (some 10000) ⟨"c", "ua", "tok", "application/json"⟩) 100000
      = none := by
  refine ⟨(C9_cache_freshness ⟨"c", "ua", "tok", "application/json"⟩ 100000 96400).1 (by omega),
    ((C9_cache_freshness ⟨"c", "ua", "tok", "application/json"⟩ 100000 10000).2.1 (by omega))⟩

/-! ## C4: probe classification -/

/-- C4 counterexample: a 200-status response whose `msg` contains
"Token invalid" but whose `success` flag is set classifies as *valid*
(`true`), because the code consults `success` first — the claim
demands that any 200 response containing the phrase classify as
invalid (`false`). -/
theorem C4_counterexample :
    strContains "Token invalid" "Token invalid" = true
    ∧ test_headers_validity (.got ⟨200, some ⟨true, "Token invalid"⟩⟩) = true := by
  exact ⟨by decide, rfl⟩

/-- C4 (amended): a 200-status response with the success flag set is
valid (even if its msg contains "Token invalid"); a 200-status
response without the success flag whose msg contains "Token invalid"
is invalid; any other 200-status parsed response is valid; a non-200
status, a parse failure and a network/timeout failure are all invalid
(fail closed); and in every non-valid case — as well as when no cached
headers exist — the orchestrator re-authenticates via browser login. -/
theorem C4_probe_classification :
    ∀ (msg : String) (status : Nat) (payload : Option JsonBody)
      (h : HeaderSet) (probe : ProbeOutcome),
    test_headers_validity (.got ⟨200, some ⟨true, msg⟩⟩) = true
    ∧ (strContains msg "Token invalid" = true →
        test_headers_validity (.got ⟨200, some ⟨false, msg⟩⟩) = false)
    ∧ (strContains msg "Token invalid" = false →
        test_headers_validity (.got ⟨200, some ⟨false, msg⟩⟩) = true)
    ∧ (status ≠ 200 → test_headers_validity (.got ⟨status, payload⟩) = false)
    ∧ test_headers_validity (.got ⟨200, none⟩) = false
    ∧ test_headers_validity .raised = false
    ∧ (test_headers_validity probe = false →
        runAuthDecision (some h) probe = .browserLogin)
    ∧ runAuthDecision none probe = .browserLogin := by
  intro msg status payload h probe
  refine ⟨rfl, fun hc => ?_, fun hc => ?_, fun hs => ?_, rfl, rfl, fun hp => ?_, rfl⟩
  · simp [test_headers_validity, hc]
  · simp [test_headers_validity, hc]
  · simp [test_headers_validity, hs]
  · simp [runAuthDecision, hp]

/-- C4 witness: concrete instances for each hypothetical conjunct. -/
theorem C4_probe_classification_witness :
    test_headers_validity (.got ⟨200, some ⟨false, "Token invalid"⟩⟩) = false
    ∧ test_headers_validity (.got ⟨200, some ⟨false, "all good"⟩⟩) = true
    ∧ test_headers_validity (.got ⟨500, some ⟨true, ""⟩⟩) = false
    ∧ runAuthDecision (some ⟨"c", "ua", "tok", "ct"⟩) .raised = .browserLogin := by
  refine ⟨(C4_probe_classification "Token invalid" 500 none ⟨"c", "ua", "tok", "ct"⟩ .raised).2.1 (by decide),
    (C4_probe_classification "all good" 500 none ⟨"c", "ua", "tok", "ct"⟩ .raised).2.2.1 (by decide),
    (C4_probe_classification "" 500 (some ⟨true, ""⟩) ⟨"c", "ua", "tok", "ct"⟩ .raised).2.2.2.1 (by decide),
    (C4_probe_classification "" 500 none ⟨"c", "ua", "tok", "ct"⟩ .raised).2.2.2.2.2.2.1 rfl⟩

/-! ## C5: manual override token -/

/-- C5: when a truthy manually-configured override token is present,
the assembled headers are independent of every other extraction
strategy's outcome (the observable content of short-circuiting), any
assembled header set carries the override as its Authorization value,
and for a non-placeholder override assembly succeeds with exactly the
override. -/
theorem C5_manual_override :
    ∀ (m cookieStr ua : String) (p q : PageProbe), m ≠ "" →
    (extract_auth_headers (some m) cookieStr ua p
      = extract_auth_headers (some m) cookieStr ua q)
    ∧ (∀ hs, extract_auth_headers (some m) cookieStr ua p = some hs →
        hs.authorization = m)
    ∧ (m ≠ "YOUR_AUTH_TOKEN_HERE" →
        extract_auth_headers (some m) cookieStr ua p
          = some ⟨cookieStr, ua, m, "application/json"⟩) := by
  intro m cookieStr ua p q hm
  refine ⟨?_, fun hs heq => ?_, fun hph => ?_⟩
  · simp [extract_auth_headers, hm]
  · simp only [extract_auth_headers, if_neg hm] at heq
    by_cases hc : m = "" ∨ m = "YOUR_AUTH_TOKEN_HERE"
    · rw [if_pos hc] at heq; exact absurd heq (by simp)
    · rw [if_neg hc] at heq
      have := (Option.some.injEq _ _).mp heq
      rw [← this]
  · simp [extract_auth_headers, hm, hph]

/-- C5 witness: a page whose storage strategy yields a different token
is ignored in favour of the override. -/
theorem C5_manual_override_witness :
    extract_auth_headers (some "override-tok") "ck" "ua"
      ⟨some "storage-tok", some "global-tok", none, none⟩
      = some ⟨"ck", "ua", "override-tok", "application/json"⟩ := by
  exact (C5_manual_override "override-tok" "ck" "ua"
    ⟨some "storage-tok", some "global-tok", none, none⟩
    ⟨none, none, none, none⟩ (by decide)).2.2 (by decide)

/-! ## Ledger lemmas: the fold underlying `save_orders_to_db` -/

theorem updFields_order_no (f : RowFields) (now : Nat) (x : OrderRecord) :
    (updFields f now x).order_no = x.order_no := rfl

theorem updFields_created_at (f : RowFields) (now : Nat) (x : OrderRecord) :
    (updFields f now x).created_at = x.created_at := rfl

theorem updFields_final_url (f : RowFields) (now : Nat) (x : OrderRecord) :
    (updFields f now x).final_url = x.final_url := rfl

/-- Re-updating with the same row values absorbs the earlier update. -/
theorem updFields_updFields (f g : RowFields) (t t' : Nat) (x : OrderRecord) :
    updFields f t (updFields g t' x) = updFields f t x := rfl

theorem updFields_mkRecord_self (f : RowFields) (t : Nat) :
    updFields f t (mkRecord f t) = mkRecord f t := rfl

theorem updIf_order_no (f : RowFields) (now : Nat) (x : OrderRecord) :
    (updIf f now x).order_no = x.order_no := by
  unfold updIf; split <;> rfl

theorem updIf_created_at (f : RowFields) (now : Nat) (x : OrderRecord) :
    (updIf f now x).created_at = x.created_at := by
  unfold updIf; split <;> rfl

theorem updIf_final_url (f : RowFields) (now : Nat) (x : OrderRecord) :
    (updIf f now x).final_url = x.final_url := by
  unfold updIf; split <;> rfl

/-- The table evolution of one `save_orders_to_db` loop iteration,
with the counters stripped. -/
def dbApply (now : Nat) (db : List OrderRecord) (f : RowFields) :
    List OrderRecord :=
  if f.order_no = "" then db
  else if keyMem f.order_no db then db.map (updIf f now)
  else db ++ [mkRecord f now]

/-- The table evolution of the whole loop. -/
def dbFold (now : Nat) (db : List OrderRecord) (fs : List RowFields) :
    List OrderRecord :=
  fs.foldl (dbApply now) db

theorem saveStep_db (now : Nat) (st : SaveState) (f : RowFields) :
    (saveStep now st f).db = dbApply now st.db f := by
  unfold saveStep dbApply
  split
  · rfl
  · split <;> rfl

theorem foldl_saveStep_db (now : Nat) (fs : List RowFields) :
    ∀ st : SaveState,
      (fs.foldl (saveStep now) st).db = dbFold now st.db fs := by
  induction fs with
  | nil => intro st; rfl
  | cons f fs ih =>
    intro st
    show ((f :: fs).foldl (saveStep now) st).db = dbFold now st.db (f :: fs)
    rw [List.foldl_cons, ih (saveStep now st f), saveStep_db]
    rfl

theorem save_orders_to_db_db (rows : List CsvRow) (now : Nat)
    (db : List OrderRecord) :
    (save_orders_to_db rows now db).db = dbFold now db (rows.map rowFields) := by
  unfold save_orders_to_db
  have h : ∀ (st : SaveState),
      (rows.foldl (fun st row => saveStep now st (rowFields row)) st)
        = ((rows.map rowFields).foldl (saveStep now) st) := by
    intro st
    rw [List.foldl_map]
  simp only [h]
  exact foldl_saveStep_db now (rows.map rowFields) ⟨db, 0, 0⟩

theorem save_orders_to_db_ret (rows : List CsvRow) (now : Nat)
    (db : List OrderRecord) :
    (save_orders_to_db rows now db).ret = true := rfl

/-! ## `keyMem` lemmas -/

theorem keyMem_map (k : String) (g : OrderRecord → OrderRecord)
    (hg : ∀ x, (g x).order_no = x.order_no) :
    ∀ db : List OrderRecord, keyMem k (db.map g) = keyMem k db := by
  intro db
  induction db with
  | nil => rfl
  | cons y ys ih =>
    simp only [List.map_cons, keyMem, List.any_cons] at *
    rw [hg y]
    cases h : decide (y.order_no = k) <;> simp_all [keyMem]

theorem keyMem_append_one (k : String) (db : List OrderRecord)
    (y : OrderRecord) :
    keyMem k (db ++ [y]) = (keyMem k db || decide (y.order_no = k)) := by
  simp [keyMem, List.any_append]

theorem keyMem_eq_false_iff (k : String) (db : List OrderRecord) :
    keyMem k db = false ↔ ∀ y ∈ db, y.order_no ≠ k := by
  simp [keyMem, List.any_eq_false]

theorem keyMem_eq_true_iff (k : String) (db : List OrderRecord) :
    keyMem k db = true ↔ ∃ y ∈ db, y.order_no = k := by
  simp [keyMem, List.any_eq_true]

theorem keyMem_dbApply_mono (now : Nat) (k : String) (db : List OrderRecord)
    (f : RowFields) (h : keyMem k db = true) :
    keyMem k (dbApply now db f) = true := by
  unfold dbApply
  split
  · exact h
  · split
    · rw [keyMem_map k (updIf f now) (updIf_order_no f now)]; exact h
    · rw [keyMem_append_one]; rw [h]; rfl

theorem keyMem_dbApply_self (now : Nat) (db : List OrderRecord)
    (f : RowFields) (hf : f.order_no ≠ "") :
    keyMem f.order_no (dbApply now db f) = true := by
  unfold dbApply
  rw [if_neg hf]
  split
  · next h => rw [keyMem_map _ (updIf f now) (updIf_order_no f now)]; exact h
  · rw [keyMem_append_one]
    simp [mkRecord]

theorem keyMem_dbFold_mono (now : Nat) (k : String) (fs : List RowFields) :
    ∀ db : List OrderRecord, keyMem k db = true →
      keyMem k (dbFold now db fs) = true := by
  induction fs with
  | nil => intro db h; exact h
  | cons f fs ih =>
    intro db h
    exact ih (dbApply now db f) (keyMem_dbApply_mono now k db f h)

theorem keyMem_dbFold_of_batch (now : Nat) (fs : List RowFields) :
    ∀ (db : List OrderRecord) (f : RowFields), f ∈ fs → f.order_no ≠ "" →
      keyMem f.order_no (dbFold now db fs) = true := by
  induction fs with
  | nil => intro db f h; exact absurd h (List.not_mem_nil f)
  | cons g fs ih =>
    intro db f hmem hf
    rcases List.mem_cons.mp hmem with h | h
    · subst h
      exact keyMem_dbFold_mono now f.order_no fs (dbApply now db f)
        (keyMem_dbApply_self now db f hf)
    · exact ih (dbApply now db g) f h hf

/-! ## Last-occurrence semantics of the upsert fold -/

/-- Last row in a batch carrying the given key. -/
def occLast (k : String) : List RowFields → Option RowFields
  | [] => none
  | f :: fs =>
    match occLast k fs with
    | some g => some g
    | none => if f.order_no = k then some f else none

/-- Last *effective* row for a key: rows with an empty key are skipped
by the loop, so an empty key is never touched. -/
def touchKey (k : String) (fs : List RowFields) : Option RowFields :=
  if k = "" then none else occLast k fs

/-- Net effect of a batch on one pre-existing record: the last
effective row with its key wins; untouched records are unchanged. -/
def applyLast (fs : List RowFields) (now : Nat) (x : OrderRecord) :
    OrderRecord :=
  match touchKey x.order_no fs with
  | some f => updFields f now x
  | none => x

theorem mapCongrL {α β : Type} (l : List α) (f g : α → β)
    (h : ∀ a ∈ l, f a = g a) : l.map f = l.map g := by
  induction l with
  | nil => rfl
  | cons a as ih =>
    simp only [List.map_cons]
    rw [h a (List.mem_cons_self a as), ih (fun a ha => h a (List.mem_cons.mpr (Or.inr ha)))]

theorem occLast_cons (k : String) (f : RowFields) (fs : List RowFields) :
    occLast k (f :: fs) =
      match occLast k fs with
      | some g => some g
      | none => if f.order_no = k then some f else none := rfl

theorem touchKey_nil (k : String) : touchKey k [] = none := by
  unfold touchKey
  split <;> rfl

theorem applyLast_nil (now : Nat) (x : OrderRecord) :
    applyLast [] now x = x := by
  unfold applyLast
  rw [touchKey_nil]

theorem touchKey_cons_skip (k : String) (f : RowFields) (fs : List RowFields)
    (hf : f.order_no = "") : touchKey k (f :: fs) = touchKey k fs := by
  unfold touchKey
  split
  · rfl
  · next hk =>
    rw [occLast_cons]
    cases hocc : occLast k fs with
    | some g => rfl
    | none => rw [if_neg (by rw [hf]; exact fun h => hk h.symm)]

theorem touchKey_cons_ne (k : String) (f : RowFields) (fs : List RowFields)
    (hne : f.order_no ≠ k) : touchKey k (f :: fs) = touchKey k fs := by
  unfold touchKey
  split
  · rfl
  · rw [occLast_cons]
    cases hocc : occLast k fs with
    | some g => rfl
    | none => rw [if_neg hne]

theorem touchKey_cons_hit (k : String) (f : RowFields) (fs : List RowFields)
    (hk : k ≠ "") (hf : f.order_no = k) (hfs : occLast k fs = none) :
    touchKey k (f :: fs) = some f := by
  unfold touchKey
  rw [if_neg hk, occLast_cons, hfs, if_pos hf]

theorem touchKey_cons_tail (k : String) (f g : RowFields)
    (fs : List RowFields) (hk : k ≠ "") (hfs : occLast k fs = some g) :
    touchKey k (f :: fs) = some g := by
  unfold touchKey
  rw [if_neg hk, occLast_cons, hfs]

theorem touchKey_empty (fs : List RowFields) : touchKey "" fs = none := by
  unfold touchKey; rw [if_pos rfl]

theorem touchKey_none_occ (k : String) (fs : List RowFields) (hk : k ≠ "")
    (h : touchKey k fs = none) : occLast k fs = none := by
  unfold touchKey at h
  rwa [if_neg hk] at h

/-- The key pointwise step: applying the batch head's update first and
then the tail's net effect equals the whole batch's net effect. -/
theorem applyLast_cons_upd (f : RowFields) (fs : List RowFields) (now : Nat)
    (hf : f.order_no ≠ "") (x : OrderRecord) :
    applyLast fs now (updIf f now x) = applyLast (f :: fs) now x := by
  by_cases hx : x.order_no = f.order_no
  · have hupd : updIf f now x = updFields f now x := by
      unfold updIf; rw [if_pos hx]
    rw [hupd]
    unfold applyLast
    rw [updFields_order_no]
    have hxne : x.order_no ≠ "" := by rw [hx]; exact hf
    cases hocc : occLast x.order_no fs with
    | some g =>
      rw [touchKey_cons_tail x.order_no f g fs hxne hocc]
      have ht : touchKey x.order_no fs = some g := by
        unfold touchKey; rw [if_neg hxne, hocc]
      rw [ht]
      exact updFields_updFields g f now now x
    | none =>
      rw [touchKey_cons_hit x.order_no f fs hxne (hx.symm) hocc]
      have ht : touchKey x.order_no fs = none := by
        unfold touchKey; rw [if_neg hxne, hocc]
      rw [ht]
  · have hupd : updIf f now x = x := by
      unfold updIf; rw [if_neg hx]
    rw [hupd]
    unfold applyLast
    rw [touchKey_cons_ne x.order_no f fs (fun h => hx h.symm)]

/-- When every effective key of the batch is already present (the
second of two identical calls), the fold is exactly the pointwise
last-occurrence update — no inserts happen. -/
theorem dbFold_all_mem (now : Nat) (fs : List RowFields) :
    ∀ db : List OrderRecord,
      (∀ f ∈ fs, f.order_no ≠ "" → keyMem f.order_no db = true) →
      dbFold now db fs = db.map (applyLast fs now) := by
  induction fs with
  | nil =>
    intro db _
    rw [show dbFold now db [] = db from rfl]
    rw [mapCongrL db (applyLast [] now) id (fun a _ => applyLast_nil now a)]
    exact (List.map_id db).symm
  | cons f fs ih =>
    intro db hkeys
    show dbFold now (dbApply now db f) fs = db.map (applyLast (f :: fs) now)
    by_cases hf : f.order_no = ""
    · have happ : dbApply now db f = db := by unfold dbApply; rw [if_pos hf]
      rw [happ, ih db (fun g hg hgne => hkeys g (List.mem_cons.mpr (Or.inr hg)) hgne)]
      apply mapCongrL
      intro x _
      unfold applyLast
      rw [touchKey_cons_skip x.order_no f fs hf]
    · have hmem : keyMem f.order_no db = true :=
        hkeys f (List.mem_cons_self f fs) hf
      have happ : dbApply now db f = db.map (updIf f now) := by
        unfold dbApply; rw [if_neg hf, if_pos hmem]
      rw [happ]
      rw [ih (db.map (updIf f now)) (fun g hg hgne => by
        rw [keyMem_map _ (updIf f now) (updIf_order_no f now)]
        exact hkeys g (List.mem_cons.mpr (Or.inr hg)) hgne)]
      rw [List.map_map]
      apply mapCongrL
      intro x _
      exact applyLast_cons_upd f fs now hf x

/-- After a fold, every record whose key is touched by the batch
carries exactly the values of the last effective row with its key
(expressed as being a fixed point of that row's update); untouched
records come from the initial table. -/
theorem dbFold_fields (now : Nat) (fs : List RowFields) :
    ∀ (db : List OrderRecord) (x : OrderRecord), x ∈ dbFold now db fs →
      (∀ f, touchKey x.order_no fs = some f → x = updFields f now x)
      ∧ (touchKey x.order_no fs = none → x ∈ db) := by
  induction fs with
  | nil =>
    intro db x hx
    exact ⟨fun f hf => by rw [touchKey_nil] at hf; exact absurd hf (by simp),
      fun _ => hx⟩
  | cons f fs ih =>
    intro db x hx
    have hx' : x ∈ dbFold now (dbApply now db f) fs := hx
    obtain ⟨ih1, ih2⟩ := ih (dbApply now db f) x hx'
    cases ht' : touchKey x.order_no fs with
    | some g =>
      have hxg : x = updFields g now x := ih1 g ht'
      have hkne : x.order_no ≠ "" := by
        intro hk
        rw [hk, touchKey_empty] at ht'
        exact absurd ht' (by simp)
      have hocc : occLast x.order_no fs = some g := by
        unfold touchKey at ht'; rwa [if_neg hkne] at ht'
      have hcons : touchKey x.order_no (f :: fs) = some g :=
        touchKey_cons_tail x.order_no f g fs hkne hocc
      refine ⟨fun f' hf' => ?_, fun hnone => ?_⟩
      · rw [hcons] at hf'
        rw [← Option.some.inj hf']
        exact hxg
      · rw [hcons] at hnone; exact absurd hnone (by simp)
    | none =>
      have hxdb : x ∈ dbApply now db f := ih2 ht'
      by_cases hk : x.order_no = ""
      · have hcons : touchKey x.order_no (f :: fs) = none := by
          rw [hk, touchKey_empty]
        refine ⟨fun f' hf' => by rw [hcons] at hf'; exact absurd hf' (by simp),
          fun _ => ?_⟩
        unfold dbApply at hxdb
        split at hxdb
        · exact hxdb
        · next hf0 =>
          split at hxdb
          · obtain ⟨y, hy, hyx⟩ := List.mem_map.mp hxdb
            have hyo : (updIf f now y).order_no = y.order_no := updIf_order_no f now y
            by_cases hyk : y.order_no = f.order_no
            · exact absurd (by rw [← hyx, hyo, hyk] at hk; exact hk) hf0
            · have : updIf f now y = y := by unfold updIf; rw [if_neg hyk]
              rw [← hyx, this]; exact hy
          · rcases List.mem_append.mp hxdb with h | h
            · exact h
            · have : x = mkRecord f now := List.mem_singleton.mp h
              exact absurd (by rw [this] at hk; exact hk) (by
                show ¬(mkRecord f now).order_no = ""
                exact hf0)
      · have hocc' : occLast x.order_no fs = none := touchKey_none_occ _ _ hk ht'
        by_cases hfx : f.order_no = x.order_no
        · have hcons : touchKey x.order_no (f :: fs) = some f :=
            touchKey_cons_hit x.order_no f fs hk hfx hocc'
          refine ⟨fun f' hf' => ?_, fun hnone => by rw [hcons] at hnone; exact absurd hnone (by simp)⟩
          rw [hcons] at hf'
          rw [← Option.some.inj hf']
          unfold dbApply at hxdb
          split at hxdb
          · next hf0 => exact absurd (hfx.symm.trans hf0) hk
          · split at hxdb
            · obtain ⟨y, hy, hyx⟩ := List.mem_map.mp hxdb
              by_cases hyk : y.order_no = f.order_no
              · have : updIf f now y = updFields f now y := by
                  unfold updIf; rw [if_pos hyk]
                rw [← hyx, this, updFields_updFields]
              · have heq : updIf f now y = y := by unfold updIf; rw [if_neg hyk]
                rw [heq] at hyx
                exact absurd (by rw [← hyx] at hfx; exact hfx.symm) hyk
            · next hmem =>
              rcases List.mem_append.mp hxdb with h | h
              · have hall := (keyMem_eq_false_iff f.order_no db).mp
                  (Bool.eq_false_iff.mpr hmem)
                exact absurd hfx.symm (hall x h)
              · have hxmk : x = mkRecord f now := List.mem_singleton.mp h
                rw [hxmk]
                exact (updFields_mkRecord_self f now).symm
        · have hcons : touchKey x.order_no (f :: fs) = none := by
            rw [touchKey_cons_ne x.order_no f fs hfx]
            exact ht'
          refine ⟨fun f' hf' => by rw [hcons] at hf'; exact absurd hf' (by simp),
            fun _ => ?_⟩
          unfold dbApply at hxdb
          split at hxdb
          · exact hxdb
          · split at hxdb
            · obtain ⟨y, hy, hyx⟩ := List.mem_map.mp hxdb
              by_cases hyk : y.order_no = f.order_no
              · have : updIf f now y = updFields f now y := by
                  unfold updIf; rw [if_pos hyk]
                rw [this] at hyx
                have : x.order_no = f.order_no := by
                  rw [← hyx, updFields_order_no]; exact hyk
                exact absurd this.symm hfx
              · have : updIf f now y = y := by unfold updIf; rw [if_neg hyk]
                rw [this] at hyx; rw [← hyx]; exact hy
            · rcases List.mem_append.mp hxdb with h | h
              · exact h
              · have hxmk : x = mkRecord f now := List.mem_singleton.mp h
                have : x.order_no = f.order_no := by rw [hxmk]; rfl
                exact absurd this.symm hfx

/-- Erase the one field the second identical call may change. -/
def clearStamp (x : OrderRecord) : OrderRecord :=
  { x with updated_at := 0 }

/-- What the second of two identical calls does to a record: touched
records get their `updated_at` bumped, the rest are untouched. -/
def bumped (fs : List RowFields) (t2 : Nat) (x : OrderRecord) : OrderRecord :=
  if (touchKey x.order_no fs).isSome then { x with updated_at := t2 } else x

theorem bumped_order_no (fs : List RowFields) (t2 : Nat) (x : OrderRecord) :
    (bumped fs t2 x).order_no = x.order_no := by
  unfold bumped; split <;> rfl

theorem clearStamp_bumped (fs : List RowFields) (t2 : Nat) (x : OrderRecord) :
    clearStamp (bumped fs t2 x) = clearStamp x := by
  unfold bumped; split <;> rfl

/-- C2: calling `save_orders_to_db` twice in succession with the same
input leaves the ledger exactly as after one call, except that each
touched record's `updated_at` is bumped to the second call's clock:
row-for-row the second result is the `bumped` image of the first, so
the order numbers agree, every field other than `updated_at` agrees,
and every record whose key occurs (non-empty) in the batch carries the
second timestamp. -/
theorem C2_idempotent_upsert :
    ∀ (batch : List CsvRow) (db : List OrderRecord) (t1 t2 : Nat),
    (save_orders_to_db batch t2 (save_orders_to_db batch t1 db).db).db
      = ((save_orders_to_db batch t1 db).db).map (bumped (batch.map rowFields) t2)
    ∧ ((save_orders_to_db batch t2 (save_orders_to_db batch t1 db).db).db).map
        (fun x => x.order_no)
      = ((save_orders_to_db batch t1 db).db).map (fun x => x.order_no)
    ∧ ((save_orders_to_db batch t2 (save_orders_to_db batch t1 db).db).db).map
        clearStamp
      = ((save_orders_to_db batch t1 db).db).map clearStamp
    ∧ ∀ x ∈ (save_orders_to_db batch t2 (save_orders_to_db batch t1 db).db).db,
        (touchKey x.order_no (batch.map rowFields)).isSome = true →
        x.updated_at = t2 := by
  intro batch db t1 t2
  have honce : (save_orders_to_db batch t1 db).db
      = dbFold t1 db (batch.map rowFields) := save_orders_to_db_db batch t1 db
  have hmain : (save_orders_to_db batch t2 (save_orders_to_db batch t1 db).db).db
      = ((save_orders_to_db batch t1 db).db).map (bumped (batch.map rowFields) t2) := by
    rw [save_orders_to_db_db batch t2 (save_orders_to_db batch t1 db).db]
    rw [dbFold_all_mem t2 (batch.map rowFields) (save_orders_to_db batch t1 db).db
      (fun f hf hfne => by
        rw [honce]
        exact keyMem_dbFold_of_batch t1 (batch.map rowFields) db f hf hfne)]
    apply mapCongrL
    intro x hx
    cases ht : touchKey x.order_no (batch.map rowFields) with
    | none =>
      unfold applyLast bumped
      rw [ht]
      simp
    | some f =>
      have hxin : x ∈ dbFold t1 db (batch.map rowFields) := by rw [← honce]; exact hx
      have hfix : x = updFields f t1 x :=
        (dbFold_fields t1 (batch.map rowFields) db x hxin).1 f ht
      unfold applyLast bumped
      rw [ht]
      simp only [Option.isSome_some, if_true]
      conv_rhs => rw [hfix]
      rfl
  refine ⟨hmain, ?_, ?_, ?_⟩
  · rw [hmain, List.map_map]
    exact mapCongrL _ _ _ (fun x _ => bumped_order_no (batch.map rowFields) t2 x)
  · rw [hmain, List.map_map]
    exact mapCongrL _ _ _ (fun x _ => clearStamp_bumped (batch.map rowFields) t2 x)
  · intro x hx hsome
    rw [hmain] at hx
    obtain ⟨y, hy, hyx⟩ := List.mem_map.mp hx
    rw [← hyx] at hsome
    rw [bumped_order_no] at hsome
    rw [← hyx]
    unfold bumped
    rw [if_pos hsome]

/-- C2 witness: a concrete one-row batch re-ingested at clocks 1 and 2;
the surviving record (inserted at 1, rewritten at 2) carries the
second call's timestamp. -/
theorem C2_idempotent_upsert_witness :
    (updFields (rowFields [("Order No.", "7001")]) 2
      (mkRecord (rowFields [("Order No.", "7001")]) 1)).updated_at = 2 := by
  exact (C2_idempotent_upsert [[("Order No.", "7001")]] [] 1 2).2.2.2
    (updFields (rowFields [("Order No.", "7001")]) 2
      (mkRecord (rowFields [("Order No.", "7001")]) 1))
    (by decide) (by decide)

/-! ## C1: per-row upsert behaviour -/

/-- C1 counterexample: the Python function's return value is the
constant `True` — two batches with different inserted/updated counts
yield the same return value, so the operation does not return the
counts (it only logs them). -/
theorem C1_counterexample :
    (save_orders_to_db [[("Order No.", "1001")]] 0 []).saved_count
        ≠ (save_orders_to_db [] 0 []).saved_count
    ∧ (save_orders_to_db [[("Order No.", "1001")]] 0 []).ret
        = (save_orders_to_db [] 0 []).ret := by
  exact ⟨by decide, rfl⟩

/-- C1 (amended): for every batch, each row is processed as claimed —
an empty `Order No.` is skipped; an existing `orderNo` rewrites all
mapped fields plus `updated_at`, leaving `order_no`, `created_at` and
`final_url` untouched, bumping the updated counter; a fresh `orderNo`
) is inserted with `final_url` NULL, bumping the inserted counter; the
counts are computed and logged but the operation returns only the
success flag `True`. -/
theorem C1_upsert_rows :
    ∀ (now : Nat) (st : SaveState) (row : CsvRow),
    (dictGet row "Order No." = "" → saveStep now st (rowFields row) = st)
    ∧ (dictGet row "Order No." ≠ "" →
        keyMem (dictGet row "Order No.") st.db = true →
        (saveStep now st (rowFields row)).db = st.db.map (updIf (rowFields row) now)
        ∧ (saveStep now st (rowFields row)).updated_count = st.updated_count + 1
        ∧ (saveStep now st (rowFields row)).saved_count = st.saved_count
        ∧ (∀ x : OrderRecord,
            (updIf (rowFields row) now x).order_no = x.order_no
            ∧ (updIf (rowFields row) now x).created_at = x.created_at
            ∧ (updIf (rowFields row) now x).final_url = x.final_url)
        ∧ (∀ x : OrderRecord, x.order_no = dictGet row "Order No." →
            updIf (rowFields row) now x =
              { x with
                sale_amount_usd := dictGet row "Sale Amount(USD)"
                estimated_commission := dictGet row "Estimated commission"
                confirmed_commission := dictGet row "Confirmed Commission"
                status := dictGet row "Status"
                description := dictGet row "Description"
                create_time := dictGet row "Create Time"
                pid := dictGet row "pid"
                tracking_source := dictGet row "tracking source"
                media_id := dictGet row "media id"
                media := dictGet row "media"
                customize1_id := dictGet row "Customize1 ID"
                customize2_id := dictGet row "Customize2 ID"
                country_region := dictGet row "Country/Region"
                updated_at := now }))
    ∧ (dictGet row "Order No." ≠ "" →
        keyMem (dictGet row "Order No.") st.db = false →
        (saveStep now st (rowFields row)).db = st.db ++ [mkRecord (rowFields row) now]
        ∧ (mkRecord (rowFields row) now).final_url = none
        ∧ (mkRecord (rowFields row) now).order_no = dictGet row "Order No."
        ∧ (mkRecord (rowFields row) now).created_at = now
        ∧ (saveStep now st (rowFields row)).saved_count = st.saved_count + 1
        ∧ (saveStep now st (rowFields row)).updated_count = st.updated_count)
    ∧ (∀ (batch : List CsvRow) (db0 : List OrderRecord),
        (save_orders_to_db batch now db0).ret = true
        ∧ (save_orders_to_db batch now db0).db
            = dbFold now db0 (batch.map rowFields)) := by
  intro now st row
  refine ⟨fun h => ?_, fun h1 h2 => ?_, fun h1 h2 => ?_,
    fun batch db0 => ⟨save_orders_to_db_ret batch now db0,
      save_orders_to_db_db batch now db0⟩⟩
  · unfold saveStep
    rw [if_pos (show (rowFields row).order_no = "" from h)]
  · have h1' : ¬(rowFields row).order_no = "" := h1
    have h2' : keyMem (rowFields row).order_no st.db = true := h2
    unfold saveStep
    rw [if_neg h1', if_pos h2']
    refine ⟨rfl, rfl, rfl,
      fun x => ⟨updIf_order_no _ now x, updIf_created_at _ now x,
        updIf_final_url _ now x⟩,
      fun x hx => ?_⟩
    unfold updIf
    rw [if_pos (show x.order_no = (rowFields row).order_no from hx)]
    rfl
  · have h1' : ¬(rowFields row).order_no = "" := h1
    have h2' : keyMem (rowFields row).order_no st.db = false := h2
    unfold saveStep
    rw [if_neg h1', if_neg (by rw [h2']; exact Bool.false_ne_true)]
    exact ⟨rfl, rfl, rfl, rfl, rfl, rfl⟩

/-- C1 witness: a fresh row is inserted with `final_url` NULL and the
inserted counter bumped; an empty-keyed row is skipped. -/
theorem C1_upsert_rows_witness :
    (saveStep 5 ⟨[], 0, 0⟩ (rowFields [("Order No.", "9001")])).saved_count = 1
    ∧ (mkRecord (rowFields [("Order No.", "9001")]) 5).final_url = none
    ∧ saveStep 5 ⟨[], 0, 0⟩ (rowFields [("Order No.", "")]) = ⟨[], 0, 0⟩ := by
  have h := (C1_upsert_rows 5 ⟨[], 0, 0⟩ [("Order No.", "9001")]).2.2.1
    (by decide) (by decide)
  have hskip := (C1_upsert_rows 5 ⟨[], 0, 0⟩ [("Order No.", "")]).1 (by decide)
  exact ⟨h.2.2.2.2.1, h.2.1, hskip⟩

/-! ## C8: the unresolved-records query -/

theorem insertDesc_perm (x : OrderRecord) :
    ∀ l : List OrderRecord, List.Perm (insertDesc x l) (x :: l) := by
  intro l
  induction l with
  | nil => exact List.Perm.refl _
  | cons y ys ih =>
    unfold insertDesc
    split
    · exact List.Perm.refl _
    · exact (List.Perm.cons y ih).trans (List.Perm.swap x y ys)

theorem sortDesc_perm : ∀ l : List OrderRecord, List.Perm (sortDesc l) l := by
  intro l
  induction l with
  | nil => exact List.Perm.refl _
  | cons y ys ih =>
    exact (insertDesc_perm y (sortDesc ys)).trans (List.Perm.cons y ih)

theorem insertDesc_pairwise (x : OrderRecord) :
    ∀ l : List OrderRecord,
      l.Pairwise (fun a b => b.order_no ≤ a.order_no) →
      (insertDesc x l).Pairwise (fun a b => b.order_no ≤ a.order_no) := by
  intro l
  induction l with
  | nil => intro _; exact List.pairwise_singleton _ x
  | cons y ys ih =>
    intro hp
    rcases List.pairwise_cons.mp hp with ⟨hy, hys⟩
    unfold insertDesc
    split
    · next hle =>
      apply List.pairwise_cons.mpr
      refine ⟨?_, hp⟩
      intro z hz
      rcases List.mem_cons.mp hz with rfl | hz'
      · exact hle
      · exact le_trans (hy z hz') hle
    · next hnle =>
      apply List.pairwise_cons.mpr
      refine ⟨?_, ih hys⟩
      intro z hz
      have hz' : z ∈ x :: ys := (insertDesc_perm x ys).mem_iff.mp hz
      rcases List.mem_cons.mp hz' with rfl | hz''
      · exact le_of_not_le hnle
      · exact hy z hz''

theorem sortDesc_pairwise :
    ∀ l : List OrderRecord,
      (sortDesc l).Pairwise (fun a b => b.order_no ≤ a.order_no) := by
  intro l
  induction l with
  | nil => exact List.Pairwise.nil
  | cons y ys ih => exact insertDesc_pairwise y (sortDesc ys) ih

/-- C8: the query returns exactly the records whose `final_url` is
NULL — every returned record has `final_url = none`, the result is a
permutation of the NULL-filtered table — and it is ordered by
`order_no` descending. -/
theorem C8_unresolved_query : ∀ db : List OrderRecord,
    (∀ x ∈ get_orders_without_final_url db, x.final_url = none)
    ∧ List.Perm (get_orders_without_final_url db)
        (db.filter (fun x => x.final_url.isNone))
    ∧ (get_orders_without_final_url db).Pairwise
        (fun a b => b.order_no ≤ a.order_no) := by
  intro db
  have hperm : List.Perm (get_orders_without_final_url db)
      (db.filter (fun x => x.final_url.isNone)) :=
    sortDesc_perm (db.filter (fun x => x.final_url.isNone))
  refine ⟨fun x hx => ?_, hperm, sortDesc_pairwise _⟩
  have hx' : x ∈ db.filter (fun y => y.final_url.isNone) :=
    hperm.mem_iff.mp hx
  have := (List.mem_filter.mp hx').2
  exact Option.isNone_iff_eq_none.mp (by simpa using this)

/-- C8 witness: in a two-record ledger, the resolved record is
filtered out and the unresolved one is reported with a NULL URL. -/
theorem C8_unresolved_query_witness :
    (⟨"A1", "", "", "", "", "", "", "", "", "", "", "", "", "",
      none, 0, 0⟩ : OrderRecord).final_url = none := by
  exact (C8_unresolved_query
    [⟨"A2", "", "", "", "", "", "", "", "", "", "", "", "", "",
      some "done", 0, 0⟩,
     ⟨"A1", "", "", "", "", "", "", "", "", "", "", "", "", "",
      none, 0, 0⟩]).1
    ⟨"A1", "", "", "", "", "", "", "", "", "", "", "", "", "",
      none, 0, 0⟩ (by decide)

/-! ## Lookup-preservation lemmas for the `final_url` discipline -/

theorem lookup_map_keyfixed (g : OrderRecord → OrderRecord)
    (hg : ∀ x, (g x).order_no = x.order_no) (k : String) :
    ∀ db : List OrderRecord,
      lookupByNo (db.map g) k = (lookupByNo db k).map g := by
  intro db
  induction db with
  | nil => rfl
  | cons y ys ih =>
    by_cases hy : y.order_no = k
    · have h1 : lookupByNo ((y :: ys).map g) k = some (g y) := by
        unfold lookupByNo
        rw [List.map_cons]
        exact List.find?_cons_of_pos _ (by simp [hg y, hy])
      have h2 : lookupByNo (y :: ys) k = some y := by
        unfold lookupByNo
        exact List.find?_cons_of_pos _ (by simp [hy])
      rw [h1, h2]; rfl
    · have h1 : lookupByNo ((y :: ys).map g) k = lookupByNo (ys.map g) k := by
        unfold lookupByNo
        rw [List.map_cons]
        exact List.find?_cons_of_neg _ (by simp [hg y, hy])
      have h2 : lookupByNo (y :: ys) k = lookupByNo ys k := by
        unfold lookupByNo
        exact List.find?_cons_of_neg _ (by simp [hy])
      rw [h1, h2, ih]

theorem lookup_append (db l : List OrderRecord) (k : String) :
    lookupByNo (db ++ l) k = (lookupByNo db k).or (lookupByNo l k) := by
  unfold lookupByNo
  exact List.find?_append

theorem lookup_order_no (db : List OrderRecord) (k : String) (x : OrderRecord)
    (h : lookupByNo db k = some x) : x.order_no = k := by
  have := List.find?_some h
  simpa using this

theorem dbApply_lookup_some (now : Nat) (k : String) (f : RowFields)
    (db : List OrderRecord) (x : OrderRecord) (h : lookupByNo db k = some x) :
    ∃ y, lookupByNo (dbApply now db f) k = some y
      ∧ y.order_no = x.order_no ∧ y.created_at = x.created_at
      ∧ y.final_url = x.final_url := by
  unfold dbApply
  split
  · exact ⟨x, h, rfl, rfl, rfl⟩
  · split
    · refine ⟨updIf f now x, ?_, updIf_order_no f now x,
        updIf_created_at f now x, updIf_final_url f now x⟩
      rw [lookup_map_keyfixed (updIf f now) (updIf_order_no f now) k db, h]
      rfl
    · refine ⟨x, ?_, rfl, rfl, rfl⟩
      rw [lookup_append, h]
      rfl

theorem dbApply_lookup_none (now : Nat) (k : String) (f : RowFields)
    (db : List OrderRecord) (h : lookupByNo db k = none) :
    lookupByNo (dbApply now db f) k = none
    ∨ ∃ y, lookupByNo (dbApply now db f) k = some y ∧ y.final_url = none := by
  unfold dbApply
  split
  · exact Or.inl h
  · split
    · left
      rw [lookup_map_keyfixed (updIf f now) (updIf_order_no f now) k db, h]
      rfl
    · rw [lookup_append, h]
      by_cases hmk : (mkRecord f now).order_no = k
      · right
        refine ⟨mkRecord f now, ?_, rfl⟩
        show lookupByNo [mkRecord f now] k = some (mkRecord f now)
        exact List.find?_cons_of_pos _ (by simp [hmk])
      · left
        show lookupByNo [mkRecord f now] k = none
        unfold lookupByNo
        rw [List.find?_cons_of_neg _ (by simp [hmk])]
        rfl

theorem dbFold_lookup_some (now : Nat) (k : String) (fs : List RowFields) :
    ∀ (db : List OrderRecord) (x : OrderRecord), lookupByNo db k = some x →
      ∃ y, lookupByNo (dbFold now db fs) k = some y
        ∧ y.order_no = x.order_no ∧ y.created_at = x.created_at
        ∧ y.final_url = x.final_url := by
  induction fs with
  | nil => intro db x h; exact ⟨x, h, rfl, rfl, rfl⟩
  | cons f fs ih =>
    intro db x h
    obtain ⟨y1, hy1, ho1, hc1, hu1⟩ := dbApply_lookup_some now k f db x h
    obtain ⟨y2, hy2, ho2, hc2, hu2⟩ := ih (dbApply now db f) y1 hy1
    exact ⟨y2, hy2, ho2.trans ho1, hc2.trans hc1, hu2.trans hu1⟩

theorem dbFold_lookup_none (now : Nat) (k : String) (fs : List RowFields) :
    ∀ db : List OrderRecord, lookupByNo db k = none →
      lookupByNo (dbFold now db fs) k = none
      ∨ ∃ y, lookupByNo (dbFold now db fs) k = some y
          ∧ y.final_url = none := by
  induction fs with
  | nil => intro db h; exact Or.inl h
  | cons f fs ih =>
    intro db h
    rcases dbApply_lookup_none now k f db h with h' | ⟨y, hy, hyn⟩
    · exact ih (dbApply now db f) h'
    · obtain ⟨y2, hy2, _, _, hu2⟩ := dbFold_lookup_some now k fs (dbApply now db f) y hy
      exact Or.inr ⟨y2, hy2, hu2.trans hyn⟩

/-! ## Lookup behaviour of `update_order_final_url` and the resolve
phase -/

/-- The row transformation of the `UPDATE ... SET final_url` statement. -/
def setUrlIf (k' u : String) (t : Nat) (x : OrderRecord) : OrderRecord :=
  if x.order_no = k' then { x with final_url := some u, updated_at := t } else x

theorem setUrlIf_order_no (k' u : String) (t : Nat) (x : OrderRecord) :
    (setUrlIf k' u t x).order_no = x.order_no := by
  unfold setUrlIf; split <;> rfl

theorem update_order_final_url_as_map (db : List OrderRecord)
    (k' u : String) (t : Nat) :
    (update_order_final_url db k' u t).1 = db.map (setUrlIf k' u t) := rfl

theorem update_final_url_lookup_other (db : List OrderRecord)
    (k' u : String) (t : Nat) (k : String) (hne : k ≠ k') :
    lookupByNo (update_order_final_url db k' u t).1 k = lookupByNo db k := by
  rw [update_order_final_url_as_map,
    lookup_map_keyfixed (setUrlIf k' u t) (setUrlIf_order_no k' u t) k db]
  cases h : lookupByNo db k with
  | none => rfl
  | some x =>
    have hx : x.order_no = k := lookup_order_no db k x h
    show some (setUrlIf k' u t x) = some x
    unfold setUrlIf
    rw [if_neg (by rw [hx]; exact hne)]

theorem update_final_url_lookup_self (db : List OrderRecord)
    (k u : String) (t : Nat) (x : OrderRecord)
    (h : lookupByNo db k = some x) :
    lookupByNo (update_order_final_url db k u t).1 k
      = some { x with final_url := some u, updated_at := t } := by
  rw [update_order_final_url_as_map,
    lookup_map_keyfixed (setUrlIf k u t) (setUrlIf_order_no k u t) k db, h]
  show some (setUrlIf k u t x) = _
  unfold setUrlIf
  rw [if_pos (lookup_order_no db k x h)]

theorem update_final_url_lookup_none (db : List OrderRecord)
    (k' u : String) (t : Nat) (k : String)
    (h : lookupByNo db k = none) :
    lookupByNo (update_order_final_url db k' u t).1 k = none := by
  rw [update_order_final_url_as_map,
    lookup_map_keyfixed (setUrlIf k' u t) (setUrlIf_order_no k' u t) k db, h]
  rfl

theorem resolveStep_lookup_other (res : String → Option String) (now : Nat)
    (cur : List OrderRecord) (o : OrderRecord) (k : String)
    (hne : o.order_no ≠ k) :
    lookupByNo (resolveStep res now cur o) k = lookupByNo cur k := by
  unfold resolveStep
  split
  · cases res (seedUrl o) with
    | some u =>
      show lookupByNo (if u ≠ "" then _ else _) k = _
      split
      · exact update_final_url_lookup_other cur o.order_no u now k
          (fun h => hne h.symm)
      · rfl
    | none => rfl
  · rfl

theorem resolveFold_lookup_fixed (res : String → Option String) (now : Nat)
    (k : String) (list : List OrderRecord) :
    ∀ cur : List OrderRecord, (∀ o ∈ list, o.order_no ≠ k) →
      lookupByNo (list.foldl (resolveStep res now) cur) k
        = lookupByNo cur k := by
  induction list with
  | nil => intro cur _; rfl
  | cons o os ih =>
    intro cur hall
    show lookupByNo (os.foldl (resolveStep res now) (resolveStep res now cur o)) k
        = lookupByNo cur k
    rw [ih (resolveStep res now cur o)
      (fun o' ho' => hall o' (List.mem_cons.mpr (Or.inr ho')))]
    exact resolveStep_lookup_other res now cur o k
      (hall o (List.mem_cons_self o os))

/-- The PRIMARY KEY invariant of the `orders` table: no two rows share
an `order_no`. -/
def uniqueKeys (db : List OrderRecord) : Prop :=
  db.Pairwise (fun a b => a.order_no ≠ b.order_no)

/-- Under the key invariant, every record in the unresolved snapshot
has a key different from that of any record holding a non-null URL. -/
theorem unresolved_keys_ne (db : List OrderRecord) (k u : String)
    (x : OrderRecord) (huniq : uniqueKeys db)
    (hx : lookupByNo db k = some x) (hurl : x.final_url = some u) :
    ∀ o ∈ get_orders_without_final_url db, o.order_no ≠ k := by
  intro o ho hok
  have homem : o ∈ db.filter (fun y => y.final_url.isNone) :=
    (sortDesc_perm _).mem_iff.mp ho
  have hodb : o ∈ db := (List.mem_filter.mp homem).1
  have hourl : o.final_url = none :=
    Option.isNone_iff_eq_none.mp (by simpa using (List.mem_filter.mp homem).2)
  have hxdb : x ∈ db := List.mem_of_find?_eq_some hx
  have hxk : x.order_no = k := lookup_order_no db k x hx
  have hne : o ≠ x := by
    intro h; rw [h, hurl] at hourl; exact Option.noConfusion hourl
  have hsymm : Symmetric (fun a b : OrderRecord => a.order_no ≠ b.order_no) :=
    fun a b h he => h he.symm
  exact (List.Pairwise.forall hsymm huniq hodb hxdb hne) (hok.trans hxk.symm)

theorem resolveStep_null_inv (res : String → Option String) (now : Nat)
    (cur : List OrderRecord) (o : OrderRecord) (k : String) (y : OrderRecord)
    (hy : lookupByNo cur k = some y)
    (hnull : y.final_url = none ∨ ∃ u, u ≠ "" ∧ y.final_url = some u) :
    ∃ y', lookupByNo (resolveStep res now cur o) k = some y'
      ∧ y'.order_no = y.order_no ∧ y'.created_at = y.created_at
      ∧ (y'.final_url = none ∨ ∃ u, u ≠ "" ∧ y'.final_url = some u) := by
  by_cases ho : o.order_no = k
  · unfold resolveStep
    split
    · split
      · next u hres =>
        split
        · next hu =>
          rw [← ho]
          refine ⟨{ y with final_url := some u, updated_at := now },
            update_final_url_lookup_self cur o.order_no u now y
              (by rw [ho]; exact hy), rfl, rfl, Or.inr ⟨u, hu, rfl⟩⟩
        · exact ⟨y, hy, rfl, rfl, hnull⟩
      · exact ⟨y, hy, rfl, rfl, hnull⟩
    · exact ⟨y, hy, rfl, rfl, hnull⟩
  · rw [resolveStep_lookup_other res now cur o k ho]
    exact ⟨y, hy, rfl, rfl, hnull⟩

theorem resolveFold_null_inv (res : String → Option String) (now : Nat)
    (k : String) (list : List OrderRecord) :
    ∀ (cur : List OrderRecord) (y : OrderRecord),
      lookupByNo cur k = some y →
      (y.final_url = none ∨ ∃ u, u ≠ "" ∧ y.final_url = some u) →
      ∃ y', lookupByNo (list.foldl (resolveStep res now) cur) k = some y'
        ∧ y'.order_no = y.order_no ∧ y'.created_at = y.created_at
        ∧ (y'.final_url = none ∨ ∃ u, u ≠ "" ∧ y'.final_url = some u) := by
  induction list with
  | nil => intro cur y hy hnull; exact ⟨y, hy, rfl, rfl, hnull⟩
  | cons o os ih =>
    intro cur y hy hnull
    obtain ⟨y1, hy1, ho1, hc1, hnull1⟩ :=
      resolveStep_null_inv res now cur o k y hy hnull
    obtain ⟨y2, hy2, ho2, hc2, hnull2⟩ :=
      ih (resolveStep res now cur o) y1 hy1 hnull1
    exact ⟨y2, hy2, ho2.trans ho1, hc2.trans hc1, hnull2⟩

theorem resolveStep_lookup_none (res : String → Option String) (now : Nat)
    (cur : List OrderRecord) (o : OrderRecord) (k : String)
    (h : lookupByNo cur k = none) :
    lookupByNo (resolveStep res now cur o) k = none := by
  unfold resolveStep
  split
  · split
    · next u hres =>
      split
      · exact update_final_url_lookup_none cur o.order_no u now k h
      · exact h
    · exact h
  · exact h

theorem resolveFold_lookup_none (res : String → Option String) (now : Nat)
    (k : String) (list : List OrderRecord) :
    ∀ cur : List OrderRecord, lookupByNo cur k = none →
      lookupByNo (list.foldl (resolveStep res now) cur) k = none := by
  induction list with
  | nil => intro cur h; exact h
  | cons o os ih =>
    intro cur h
    exact ih (resolveStep res now cur o)
      (resolveStep_lookup_none res now cur o k h)

/-- A record whose `final_url` is already non-null is left completely
untouched by the resolve phase (given the key invariant). -/
theorem resolvePhase_keeps_nonnull (res : String → Option String) (now : Nat)
    (db : List OrderRecord) (k u : String) (x : OrderRecord)
    (huniq : uniqueKeys db) (hx : lookupByNo db k = some x)
    (hurl : x.final_url = some u) :
    lookupByNo (resolvePhase res now db) k = some x := by
  unfold resolvePhase
  rw [resolveFold_lookup_fixed res now k (get_orders_without_final_url db) db
    (unresolved_keys_ne db k u x huniq hx hurl)]
  exact hx

/-- One pipeline operation on the ledger: a `save_orders_to_db`
re-ingestion, or a resolve phase (`get_orders_without_final_url` +
`follow_all_redirects` + `update_order_final_url`). -/
inductive LedgerStep (db : List OrderRecord) : List OrderRecord → Prop where
  | upsert (batch : List CsvRow) (now : Nat) :
      LedgerStep db (save_orders_to_db batch now db).db
  | resolve (res : String → Option String) (now : Nat) :
      LedgerStep db (resolvePhase res now db)

/-- C3: across every pipeline operation, each record's `final_url`
either stays exactly what it was, or goes from NULL to a non-empty
URL — never from non-null back to NULL and never from one non-null
value to another; records absent before stay absent or appear with a
NULL `final_url`. -/
theorem C3_final_url_write_once :
    ∀ (db db' : List OrderRecord), uniqueKeys db → LedgerStep db db' →
    ∀ k : String,
      (∀ x, lookupByNo db k = some x →
        ∃ y, lookupByNo db' k = some y
          ∧ y.order_no = x.order_no ∧ y.created_at = x.created_at
          ∧ (y.final_url = x.final_url
             ∨ (x.final_url = none ∧ ∃ u, u ≠ "" ∧ y.final_url = some u)))
      ∧ (lookupByNo db k = none →
          lookupByNo db' k = none
          ∨ ∃ y, lookupByNo db' k = some y ∧ y.final_url = none) := by
  intro db db' huniq hstep k
  cases hstep with
  | upsert batch now =>
    constructor
    · intro x hx
      obtain ⟨y, hy, ho, hc, hu⟩ :=
        dbFold_lookup_some now k (batch.map rowFields) db x hx
      refine ⟨y, ?_, ho, hc, Or.inl hu⟩
      rw [save_orders_to_db_db]
      exact hy
    · intro hx
      rw [save_orders_to_db_db]
      exact dbFold_lookup_none now k (batch.map rowFields) db hx
  | resolve res now =>
    constructor
    · intro x hx
      cases hurl : x.final_url with
      | some u =>
        exact ⟨x, resolvePhase_keeps_nonnull res now db k u x huniq hx hurl,
          rfl, rfl, Or.inl hurl⟩
      | none =>
        obtain ⟨y', hy', ho, hc, hnull⟩ :=
          resolveFold_null_inv res now k (get_orders_without_final_url db)
            db x hx (Or.inl hurl)
        refine ⟨y', hy', ho, hc, ?_⟩
        rcases hnull with hn | ⟨u, hu, hs⟩
        · exact Or.inl hn
        · exact Or.inr ⟨rfl, u, hu, hs⟩
    · intro hx
      exact Or.inl (resolveFold_lookup_none res now k
        (get_orders_without_final_url db) db hx)

/-- Concrete record used by the C3 witness. -/
def recKept : OrderRecord :=
  ⟨"A", "", "", "", "", "", "", "", "", "", "", "", "", "",
    some "kept", 0, 0⟩

/-- C3 witness: a resolve phase over a one-record ledger whose URL is
already resolved leaves that URL untouched even though the oracle
would offer a new one. -/
theorem C3_final_url_write_once_witness :
    ∃ y, lookupByNo (resolvePhase (fun _ => some "u2") 7 [recKept]) "A"
        = some y ∧ y.final_url = some "kept" := by
  obtain ⟨y, hy, _, _, hdisj⟩ :=
    (C3_final_url_write_once [recKept] (resolvePhase (fun _ => some "u2") 7 [recKept])
      (List.pairwise_singleton _ recKept)
      (.resolve (fun _ => some "u2") 7) "A").1 recKept rfl
  rcases hdisj with h | ⟨hn, _⟩
  · exact ⟨y, hy, by rw [h]; rfl⟩
  · exact absurd hn (by decide)

/-- C10: `update_order_final_url` writes `final_url` unconditionally —
for any record under the key, including one whose `final_url` is
already non-null, the field becomes the new value (and `updated_at`
the new clock) and the call returns `True`; the write-once discipline
holds only because the pipeline feeds it records from
`get_orders_without_final_url`, under which a record with a non-null
URL is never touched by a resolve phase. -/
theorem C10_set_final_url_unconditional :
    ∀ (db : List OrderRecord) (k u : String) (t : Nat),
      (∀ x, lookupByNo db k = some x →
        lookupByNo (update_order_final_url db k u t).1 k
          = some { x with final_url := some u, updated_at := t })
      ∧ (update_order_final_url db k u t).2 = true
      ∧ (∀ (res : String → Option String) (now : Nat) (x : OrderRecord)
          (u' : String), uniqueKeys db → lookupByNo db k = some x →
          x.final_url = some u' →
          lookupByNo (resolvePhase res now db) k = some x) := by
  intro db k u t
  exact ⟨fun x hx => update_final_url_lookup_self db k u t x hx, rfl,
    fun res now x u' huniq hx hurl =>
      resolvePhase_keeps_nonnull res now db k u' x huniq hx hurl⟩

/-- Concrete record used by the C10 witness. -/
def recOld : OrderRecord :=
  ⟨"B", "", "", "", "", "", "", "", "", "", "", "", "", "",
    some "oldurl", 0, 0⟩

/-- C10 witness: the already-resolved URL `oldurl` is overwritten by a
direct `update_order_final_url` call. -/
theorem C10_set_final_url_unconditional_witness :
    lookupByNo (update_order_final_url [recOld] "B" "newurl" 9).1 "B"
      = some { recOld with final_url := some "newurl", updated_at := 9 } := by
  exact (C10_set_final_url_unconditional [recOld] "B" "newurl" 9).1 recOld rfl

end DHGate
